import Mathlib

/-!
Verification development for the analysis pipeline of the Predictive Business Insights Platform (`backend/app/utils/forecasting.py`).

The embedding models the numeric domain of the source (numpy/pandas
float64) by the type `FVal`: a finite rational, positive infinity,
negative infinity, or NaN.  Arithmetic and comparisons follow IEEE-754
semantics as numpy implements them (comparisons with NaN are false,
division of a nonzero finite by zero yields a signed infinity, 0/0
yields NaN), except that signed zero is not modelled (no claim here
exercises it) and `np.sqrt` on a nonnegative finite value is modelled
by an exact-on-squares rational approximation (no claim depends on the
value of an irrational square root).  Python `round` and `np.round`
use round-half-to-even; the model rounds half up, which differs only
at exact midpoints, which no claim exercises.

Tables (pandas DataFrames) are modelled by `DF`: an ordered list of
named, dtype-carrying column headers plus a list of rows of cells.
-/

/-!
Rational arithmetic helpers.  In Mathlib, `Rat.add`, `Rat.mul`, `Rat.div`
are `@[irreducible]`, so concrete values of the embedding could not be
checked by `decide`; the `q*` helpers below compute the same functions
through `mkRat`, which the kernel evaluates, and each comes with a
bridge lemma equating it with the standard operation.
-/

/-- Kernel-evaluable addition on ℚ. -/
def qadd (a b : ℚ) : ℚ := mkRat (a.num * b.den + b.num * a.den) (a.den * b.den)

theorem qadd_eq (a b : ℚ) : qadd a b = a + b := (Rat.add_def' a b).symm

/-- Kernel-evaluable multiplication on ℚ. -/
def qmul (a b : ℚ) : ℚ := mkRat (a.num * b.num) (a.den * b.den)

theorem qmul_eq (a b : ℚ) : qmul a b = a * b := by
  rw [Rat.mul_def, Rat.normalize_eq_mkRat]; rfl

/-- Kernel-evaluable subtraction on ℚ. -/
def qsub (a b : ℚ) : ℚ := qadd a (-b)

theorem qsub_eq (a b : ℚ) : qsub a b = a - b := by
  rw [qsub, qadd_eq, sub_eq_add_neg]

/-- Kernel-evaluable division on ℚ (0 when the divisor is 0, as in ℚ). -/
def qdiv (a b : ℚ) : ℚ := Rat.divInt (a.num * b.den) (a.den * b.num)

theorem qdiv_eq (a b : ℚ) : qdiv a b = a / b := by
  rcases eq_or_ne b 0 with rfl | hb
  · simp [qdiv]
  · have hden : ((a.den : ℚ)) ≠ 0 := Nat.cast_ne_zero.mpr a.den_nz
    have hbden : ((b.den : ℚ)) ≠ 0 := Nat.cast_ne_zero.mpr b.den_nz
    have hbnum : ((b.num : ℚ)) ≠ 0 := Int.cast_ne_zero.mpr (Rat.num_ne_zero.mpr hb)
    have h1 : ((a.den * b.num : ℤ) : ℚ) ≠ 0 := by push_cast; exact mul_ne_zero hden hbnum
    rw [qdiv, Rat.divInt_eq_div, div_eq_div_iff h1 hb]
    push_cast
    have ha : (a.num : ℚ) = a * a.den := (div_eq_iff hden).mp (Rat.num_div_den a)
    have hb2 : (b.num : ℚ) = b * b.den := (div_eq_iff hbden).mp (Rat.num_div_den b)
    rw [ha, hb2]; ring

/-- Absolute value on ℚ, written with an explicit test so that the kernel
can evaluate it. -/
def rabs (q : ℚ) : ℚ := if q < 0 then -q else q

theorem rabs_eq (q : ℚ) : rabs q = |q| := by
  rw [rabs]
  rcases lt_or_le q 0 with h | h
  · simp [h, abs_of_neg h]
  · simp [not_lt.mpr h, abs_of_nonneg h]

/-- Floor on ℚ (integer division of numerator by denominator). -/
def rfloor (q : ℚ) : ℤ := q.num / (q.den : ℤ)

theorem rfloor_eq (q : ℚ) : rfloor q = ⌊q⌋ := Rat.floor_def.symm

/-- Round-half-up on ℚ (`⌊q + 1/2⌋`), kernel-evaluable. -/
def rround (q : ℚ) : ℤ := rfloor (qadd q (mkRat 1 2))

theorem rround_eq (q : ℚ) : rround q = round q := by
  rw [rround, rfloor_eq, qadd_eq, round_eq]
  norm_num

/-- Ten to the power `d` as a rational, kernel-evaluable. -/
def pow10 (d : ℕ) : ℚ := ((10 ^ d : ℕ) : ℚ)

/-- Integer square root approximation (largest `k` with `k * k ≤ n`),
written as a bounded scan so that the kernel can evaluate it. -/
def nsqrt (n : ℕ) : ℕ := (((List.range (n + 1)).filter (fun k => k * k ≤ n)).getLastD 0)

/-- A numpy/pandas float64 value: finite rational, +inf, -inf, or NaN. -/
inductive FVal where
  | fin (q : ℚ)
  | inf
  | ninf
  | nan
deriving DecidableEq

namespace FVal

/-- The numpy isnan test. -/
def isnan : FVal → Bool
  | nan => true
  | _ => false

/-- The numpy isinf test (true for both infinities, false for NaN and
finite values). -/
def isinf : FVal → Bool
  | inf => true
  | ninf => true
  | _ => false

/-- The numpy isfinite test. -/
def isFinite : FVal → Bool
  | fin _ => true
  | _ => false

/-- IEEE `<` : any comparison involving NaN is false. -/
def flt : FVal → FVal → Bool
  | nan, _ => false
  | _, nan => false
  | fin a, fin b => a < b
  | fin _, inf => true
  | fin _, ninf => false
  | inf, _ => false
  | ninf, ninf => false
  | ninf, _ => true

/-- IEEE `≤` : any comparison involving NaN is false. -/
def fle : FVal → FVal → Bool
  | nan, _ => false
  | _, nan => false
  | fin a, fin b => a ≤ b
  | fin _, inf => true
  | fin _, ninf => false
  | inf, inf => true
  | inf, _ => false
  | ninf, _ => true

/-- IEEE negation. -/
def fneg : FVal → FVal
  | fin q => fin (-q)
  | inf => ninf
  | ninf => inf
  | nan => nan

/-- Square root approximation on nonnegative rationals, mirroring
`Rat.sqrt` (exact on perfect squares), kernel-evaluable. -/
def qsqrt (q : ℚ) : ℚ := mkRat (Int.ofNat (nsqrt q.num.toNat)) (nsqrt q.den)

/-- IEEE addition: NaN propagates, inf + (-inf) = NaN. -/
def fadd : FVal → FVal → FVal
  | nan, _ => nan
  | _, nan => nan
  | inf, ninf => nan
  | ninf, inf => nan
  | inf, _ => inf
  | _, inf => inf
  | ninf, _ => ninf
  | _, ninf => ninf
  | fin a, fin b => fin (qadd a b)

/-- IEEE subtraction. -/
def fsub (a b : FVal) : FVal := fadd a (fneg b)

/-- IEEE absolute value. -/
def fabs : FVal → FVal
  | fin q => fin (rabs q)
  | inf => inf
  | ninf => inf
  | nan => nan

/-- IEEE multiplication: NaN propagates, inf * 0 = NaN. -/
def fmul : FVal → FVal → FVal
  | nan, _ => nan
  | _, nan => nan
  | fin a, fin b => fin (qmul a b)
  | inf, fin b => if 0 < b then inf else if b < 0 then ninf else nan
  | fin a, inf => if 0 < a then inf else if a < 0 then ninf else nan
  | ninf, fin b => if 0 < b then ninf else if b < 0 then inf else nan
  | fin a, ninf => if 0 < a then ninf else if a < 0 then inf else nan
  | inf, inf => inf
  | inf, ninf => ninf
  | ninf, inf => ninf
  | ninf, ninf => inf

/-- IEEE division (unsigned zero): nonzero/0 is a signed infinity, 0/0 is
NaN, inf/finite keeps the sign, finite/inf is 0, inf/inf is NaN. -/
def fdiv : FVal → FVal → FVal
  | nan, _ => nan
  | _, nan => nan
  | fin a, fin b =>
      if b ≠ 0 then fin (qdiv a b)
      else if 0 < a then inf
      else if a < 0 then ninf
      else nan
  | inf, fin b => if 0 ≤ b then inf else ninf
  | ninf, fin b => if 0 ≤ b then ninf else inf
  | fin _, inf => fin 0
  | fin _, ninf => fin 0
  | inf, _ => nan
  | ninf, _ => nan

/-- Square root as `np.sqrt`: NaN on negatives and NaN, inf on inf; on nonnegative finite
values the rational approximation `Rat.sqrt` (exact on perfect squares). -/
def fsqrt : FVal → FVal
  | fin q => if q < 0 then nan else fin (qsqrt q)
  | inf => inf
  | ninf => nan
  | nan => nan

/-- Sum of a list of float values (numpy reduction). -/
def fsum (l : List FVal) : FVal := l.foldl fadd (fin 0)

/-- Mean as `np.mean`: sum divided by length (mean of an empty list is NaN). -/
def fmean (l : List FVal) : FVal := fdiv (fsum l) (fin (l.length : ℚ))

/-- Rounding to `d` decimal places as Python round: finite values round;
infinities and NaN round to themselves. -/
def froundTo (d : ℕ) : FVal → FVal
  | fin q => fin (qdiv ((rround (qmul q (pow10 d)) : ℤ) : ℚ) (pow10 d))
  | x => x

end FVal

open FVal

/-! ## MetricsCalculator (`calculate_metrics`) -/

/-- Result record of `calculate_metrics`: MAE, RMSE, MAPE. -/
structure MetricsSet where
  MAE : FVal
  RMSE : FVal
  MAPE : FVal
deriving DecidableEq

/-- The mask step of `calculate_metrics`: zip the aligned arrays and keep
the pairs where neither entry is NaN
(`mask = ~np.isnan(y_true) & ~np.isnan(y_pred)`). -/
def validPairs (y_true y_pred : List FVal) : List (FVal × FVal) :=
  (y_true.zip y_pred).filter (fun p => !p.1.isnan && !p.2.isnan)

/-- The raw MAPE term before the non-finite guard:
`np.mean(np.abs((y_true - y_pred) / y_true)) * 100` over the masked pairs. -/
def mapeRaw (pairs : List (FVal × FVal)) : FVal :=
  fmul (fmean (pairs.map (fun p => fabs (fdiv (fsub p.1 p.2) p.1)))) (fin 100)

/-- The metrics calculator `calculate_metrics`: mask NaN pairs, return
all-zero metrics when no
pair remains, otherwise MAE, RMSE and the guarded MAPE. -/
def calculate_metrics (y_true y_pred : List FVal) : MetricsSet :=
  let pairs := validPairs y_true y_pred
  if pairs = [] then ⟨fin 0, fin 0, fin 0⟩
  else
    let mae := fmean (pairs.map (fun p => fabs (fsub p.1 p.2)))
    let rmse := fsqrt (fmean (pairs.map (fun p => fmul (fsub p.1 p.2) (fsub p.1 p.2))))
    let mape0 := mapeRaw pairs
    let mape := if mape0.isinf || mape0.isnan then fin 0 else mape0
    ⟨froundTo 4 mae, froundTo 4 rmse, froundTo 2 mape⟩

/-! ## AnomalyDetector (`detect_anomalies`) -/

/-- A row of the inner merge of actuals with the forecast frame:
timestamp, actual `y`, and the forecast columns `yhat_lower`, `yhat_upper`,
`yhat` for the same timestamp. -/
structure MergedRow where
  ds : Int
  y : FVal
  yhat_lower : FVal
  yhat_upper : FVal
  yhat : FVal
deriving DecidableEq

/-- A forecast frame row: timestamp, `yhat`, `yhat_lower`, `yhat_upper`. -/
structure FRow where
  ds : Int
  yhat : FVal
  yhat_lower : FVal
  yhat_upper : FVal
deriving DecidableEq

/-- An output row of `detect_anomalies`. -/
structure AnomalyRow where
  ds : Int
  y : FVal
  yhat : FVal
  yhat_lower : FVal
  yhat_upper : FVal
  severity : FVal
  severity_level : String
deriving DecidableEq

/-- The inner merge of `detect_anomalies`
(the pandas inner merge of actuals with the forecast frame on `ds`): for each
actual row in order, every forecast row with the same timestamp. -/
def mergeOn (actuals : List (Int × FVal)) (forecast : List FRow) : List MergedRow :=
  actuals.flatMap (fun a =>
    (forecast.filter (fun f => f.ds = a.1)).map
      (fun f => ⟨a.1, a.2, f.yhat_lower, f.yhat_upper, f.yhat⟩))

/-- The anomaly flag: `(y < yhat_lower) | (y > yhat_upper)`. -/
def is_anomalyRow (r : MergedRow) : Bool :=
  flt r.y r.yhat_lower || flt r.yhat_upper r.y

/-- Severity percentage `np.abs(y - yhat) / yhat * 100` for a flagged row. -/
def severity_pct (y yhat : FVal) : FVal :=
  fmul (fdiv (fabs (fsub y yhat)) yhat) (fin 100)

/-- Severity classification `classify_severity`: High when pct > 20,
Medium when pct > 10,
otherwise Low (float comparisons). -/
def classify_severity (pct : FVal) : String :=
  if flt (fin 20) pct then "High"
  else if flt (fin 10) pct then "Medium"
  else "Low"

/-- Build the anomaly record for a flagged merged row. -/
def mkAnomaly (r : MergedRow) : AnomalyRow :=
  ⟨r.ds, r.y, r.yhat, r.yhat_lower, r.yhat_upper,
   fabs (fsub r.y r.yhat),
   classify_severity (severity_pct r.y r.yhat)⟩

/-- The merged-frame stage of the detector: keep the flagged rows and
attach severity magnitude and level. -/
def anomalyRows (merged : List MergedRow) : List AnomalyRow :=
  (merged.filter is_anomalyRow).map mkAnomaly

/-- The detector `detect_anomalies`: inner-merge actuals with the
forecast frame on the timestamp, then flag and classify. -/
def detect_anomalies (forecast : List FRow) (actuals : List (Int × FVal)) :
    List AnomalyRow :=
  anomalyRows (mergeOn actuals forecast)

/-! ## ColumnNormalizer (`normalize_columns`) -/

/-- A cell of a table: a numeric value, a missing value (NaN/None), or a
non-numeric (string) value. -/
inductive Cell where
  | num (q : ℚ)
  | nan
  | str (s : String)
deriving DecidableEq

/-- A pandas column dtype, as far as the normalizer inspects it:
numeric (`number`/`float`/`int`) or anything else (object, datetime, ...). -/
inductive DType where
  | numeric
  | obj
deriving DecidableEq

/-- A table: ordered named, dtype-carrying column headers and rows of
cells aligned with the headers. -/
structure DF where
  headers : List (String × DType)
  rows : List (List Cell)
deriving DecidableEq

/-- The error taxonomy of `normalize_columns` (spec §4.1). -/
inductive NormError where
  | noDateColumn
  | noTargetColumn
deriving DecidableEq

instance {ε α : Type} [DecidableEq ε] [DecidableEq α] : DecidableEq (Except ε α)
  | .error a, .error b =>
    match decEq a b with
    | isTrue h => isTrue (by rw [h])
    | isFalse h => isFalse (by intro he; injection he; exact h (by assumption))
  | .error _, .ok _ => isFalse (by intro h; injection h)
  | .ok _, .error _ => isFalse (by intro h; injection h)
  | .ok a, .ok b =>
    match decEq a b with
    | isTrue h => isTrue (by rw [h])
    | isFalse h => isFalse (by intro he; injection he; exact h (by assumption))

/-- Column names of a table, in original order. -/
def DF.names (df : DF) : List String := df.headers.map (fun h => h.1)

/-- The dtype of the first column with the given name. -/
def DF.dtypeOf (df : DF) (c : String) : Option DType :=
  (df.headers.find? (fun h => h.1 = c)).map (fun h => h.2)

/-- Index of the first header with the given name. -/
def hdrIdx : List (String × DType) → String → Option Nat
  | [], _ => none
  | h :: t, c => if h.1 = c then some 0 else (hdrIdx t c).map (fun i => i + 1)

/-- Index of the first column with the given name. -/
def DF.colIdx (df : DF) (c : String) : Option Nat :=
  hdrIdx df.headers c

/-- Python truthiness test of an `Optional[str]`: `not x` is true for
`None` and for the empty string. -/
def pyFalsy : Option String → Bool
  | none => true
  | some s => s = ""

/-- ASCII lower-casing of one character (Python `str.lower`, restricted
to ASCII, which is all the detection lists use). -/
def lowerChar (c : Char) : Char :=
  if 65 ≤ c.toNat ∧ c.toNat ≤ 90 then Char.ofNat (c.toNat + 32) else c

/-- ASCII lower-casing of a string. -/
def sLower (s : String) : String := String.mk (s.data.map lowerChar)

/-- The lower-cased names accepted as a date column. -/
def dateNames : List String := ["date", "ds", "timestamp", "time"]

/-- The lower-cased generic value names accepted as a target column. -/
def commonNames : List String :=
  ["value", "sales", "revenue", "quantity", "amount", "close", "price"]

/-- Date-column detection: a column literally named `ds`, else the first
column whose lower-cased name is in `dateNames`. -/
def detectDate (df : DF) : Option String :=
  if "ds" ∈ df.names then some "ds"
  else (df.names.find? (fun c => sLower c ∈ dateNames))

/-- Target-column detection, the value held by `target_col` after the
search: a column literally named `y`; else, over the non-date columns in
order, the first whose lower-cased name is `y`, else the first whose
lower-cased name is in `commonNames`, else the first numeric-dtyped one.
The Python code guards each fallback with `if not target_col`, i.e. with
truthiness, not with a `None` test. -/
def detectTarget (df : DF) (date_col : String) : Option String :=
  if "y" ∈ df.names then some "y"
  else
    let potential := df.names.filter (fun c => c ≠ date_col)
    let t1 := potential.find? (fun c => sLower c = "y")
    if pyFalsy t1 then
      let t2 := potential.find? (fun c => sLower c ∈ commonNames)
      if pyFalsy t2 then
        (potential.filter (fun c => df.dtypeOf c = some DType.numeric)).head?
      else t2
    else t1

/-- Numeric coercion (`pd.to_numeric` in coerce mode) of one cell: numbers and NaN kept,
strings parsed if possible and otherwise coerced to NaN.  The numeral
parser accepts an optional sign, digits, and an optional fraction part;
what exactly parses is irrelevant to the claims, only that failures
become NaN. -/
def parseRatStr (s : String) : Option ℚ :=
  let core (t : List Char) (sign : Bool) : Option ℚ :=
    match t.span (fun c => c.isDigit) with
    | (ip, rest) =>
      if ip = [] then none
      else
        let ipv : ℕ := ip.foldl (fun a c => a * 10 + (c.toNat - 48)) 0
        match rest with
        | [] => some (if sign then -(ipv : ℚ) else (ipv : ℚ))
        | c :: fp =>
          if c = Char.ofNat 46 ∧ fp ≠ [] ∧ fp.all (fun d => d.isDigit) then
            let fpv : ℕ := fp.foldl (fun a d => a * 10 + (d.toNat - 48)) 0
            let mag : ℚ := qadd (ipv : ℚ) (mkRat (fpv : ℤ) (10 ^ fp.length))
            some (if sign then -mag else mag)
          else none
  match s.toList with
  | [] => none
  | c :: cs =>
    if c = Char.ofNat 45 then core cs true
    else if c = Char.ofNat 43 then core cs false
    else core (c :: cs) false

/-- Coerce one cell as `pd.to_numeric` in coerce mode does. -/
def coerceCell : Cell → Cell
  | .num q => .num q
  | .nan => .nan
  | .str s =>
    match parseRatStr s with
    | some q => .num q
    | none => .nan

/-- Rename columns as `df.rename` does with the mapping sending the date
column to `ds` and the target column to `y`: a simultaneous renaming of
every matching header. -/
def renameCols (df : DF) (d t : String) : DF :=
  ⟨df.headers.map (fun h =>
      (if h.1 = d then "ds" else if h.1 = t then "y" else h.1, h.2)),
   df.rows⟩

/-- The reassignment of column `y` to its numeric coercion: coerce every
cell of the named column and set its dtype to numeric. -/
def toNumericCol (df : DF) (c : String) : DF :=
  match df.colIdx c with
  | none => df
  | some i =>
    ⟨df.headers.set i (c, DType.numeric),
     df.rows.map (fun r => r.set i (coerceCell (r.getD i Cell.nan)))⟩

/-- Row dropping as `df.dropna` on one column: drop the rows whose cell
in the named column
is missing. -/
def dropnaCol (df : DF) (c : String) : DF :=
  match df.colIdx c with
  | none => df
  | some i => ⟨df.headers, df.rows.filter (fun r => r.getD i Cell.nan ≠ Cell.nan)⟩

/-- Column selection `df[cs]`: select the named columns, in the order
given. -/
def selectCols (df : DF) (cs : List String) : DF :=
  ⟨cs.filterMap (fun c => (df.colIdx c).map (fun i => df.headers.getD i ("", DType.obj))),
   df.rows.map (fun r => cs.filterMap (fun c => (df.colIdx c).map (fun i => r.getD i Cell.nan)))⟩

/-- The normalizer `normalize_columns`: detect the date and target
columns (with Python truthiness guards), rename them to `ds`/`y`, coerce `y` to numeric,
drop rows with missing `y`, and return the two-column table. -/
def normalize_columns (df : DF) : Except NormError DF :=
  match detectDate df with
  | none => .error NormError.noDateColumn
  | some d =>
    if d = "" then .error NormError.noDateColumn
    else
      match detectTarget df d with
      | none => .error NormError.noTargetColumn
      | some t =>
        if t = "" then .error NormError.noTargetColumn
        else
          let df1 := renameCols df d t
          let df2 := toNumericCol df1 "y"
          let df3 := dropnaCol df2 "y"
          .ok (selectCols df3 ["ds", "y"])

/-! ## InsightGenerator (`generate_insights`)

The source emits formatted HTML strings; the embedding abstracts each
emitted string to a tagged value carrying the data interpolated into it,
keeping the emission conditions and the emission order exact. -/

/-- A row of the history frame: timestamp and actual value. -/
structure HRow where
  ds : Int
  y : FVal
deriving DecidableEq

/-- One emitted insight string, abstracted to its rule and payload. -/
inductive Insight where
  | trend (intensity direction : String) (pct : FVal)
  | peak (ds : Int) (val : FVal)
  | criticalVolatility (highCount : Nat)
  | statisticalStability (totalCount : Nat)
  | operationalStability
  | highConfidence
  | variableForecast
deriving DecidableEq

/-- One emitted recommendation string, abstracted to its rule. -/
inductive Recommendation where
  | scaleOperations
  | monitorSteadyGrowth
  | costOptimization
  | peakReadiness (ds : Int)
  | riskMitigation
  | dataRefinement
deriving DecidableEq

/-- Which of the four rules an insight was emitted by (1 trend, 2 peak,
3 anomaly summary, 4 confidence). -/
def Insight.rule : Insight → Nat
  | .trend _ _ _ => 1
  | .peak _ _ => 2
  | .criticalVolatility _ => 3
  | .statisticalStability _ => 3
  | .operationalStability => 3
  | .highConfidence => 4
  | .variableForecast => 4

def Insight.isTrend : Insight → Bool
  | .trend _ _ _ => true
  | _ => false

def Insight.isPeak : Insight → Bool
  | .peak _ _ => true
  | _ => false

def Insight.isCritical : Insight → Bool
  | .criticalVolatility _ => true
  | _ => false

/-- An anomaly-summary insight (the closing line rule 3 always emits). -/
def Insight.isSummary : Insight → Bool
  | .statisticalStability _ => true
  | .operationalStability => true
  | _ => false

/-- A confidence insight (rule 4). -/
def Insight.isConfidence : Insight → Bool
  | .highConfidence => true
  | .variableForecast => true
  | _ => false

/-- The single recommendation emitted by rule 1. -/
def Recommendation.isTrendRec : Recommendation → Bool
  | .scaleOperations => true
  | .monitorSteadyGrowth => true
  | .costOptimization => true
  | _ => false

/-- Rule 1: trend insight and its one recommendation.
`trend_pct = (future_val - current_val) / current_val * 100`. -/
def trendPart (current_val future_val : FVal) : Insight × List Recommendation :=
  let trend_pct := fmul (fdiv (fsub future_val current_val) current_val) (fin 100)
  let direction := if flt (fin 0) trend_pct then "growth" else "decline"
  let intensity :=
    if flt (fin 10) (fabs trend_pct) then "Significant"
    else if flt (fin 3) (fabs trend_pct) then "Moderate"
    else "Minimal"
  (Insight.trend intensity direction trend_pct,
   if direction = "growth" then
     if flt (fin 10) (fabs trend_pct) then [Recommendation.scaleOperations]
     else [Recommendation.monitorSteadyGrowth]
   else [Recommendation.costOptimization])

/-- Argmax as `idxmax`: the first row attaining the maximum `yhat` (float max:
a later row replaces the current best only when strictly greater). -/
def argmaxYhat : List FRow → Option FRow
  | [] => none
  | f :: fs => some (fs.foldl (fun b r => if flt b.yhat r.yhat then r else b) f)

/-- The latest historical timestamp (the pandas max over the history `ds`
column; only used with a non-empty history). -/
def maxDs : List HRow → Int
  | [] => 0
  | h :: t => t.foldl (fun m r => max m r.ds) h.ds

/-- Rule 2: the forecast restricted to strictly-future timestamps; when
non-empty, a peak insight and a peak-readiness recommendation. -/
def peakPart (history : List HRow) (forecast : List FRow) : List Insight × List Recommendation :=
  let future_forecast := forecast.filter (fun r => maxDs history < r.ds)
  match argmaxYhat future_forecast with
  | none => ([], [])
  | some r => ([Insight.peak r.ds r.yhat], [Recommendation.peakReadiness r.ds])

/-- Rule 3: anomaly and volatility summary. -/
def summaryPart (anomalies : List AnomalyRow) : List Insight × List Recommendation :=
  if anomalies.isEmpty then ([Insight.operationalStability], [])
  else
    let high := anomalies.filter (fun a => a.severity_level = "High")
    ((if high.isEmpty then [] else [Insight.criticalVolatility high.length]) ++
       [Insight.statisticalStability anomalies.length],
     if high.isEmpty then [] else [Recommendation.riskMitigation])

/-- Rule 4: confidence-interval spread of the last forecast point. -/
def confidencePart (last_point : FRow) : List Insight × List Recommendation :=
  let spread :=
    fmul (fdiv (fsub last_point.yhat_upper last_point.yhat_lower) last_point.yhat) (fin 100)
  if flt spread (fin 15) then ([Insight.highConfidence], [])
  else ([Insight.variableForecast], [Recommendation.dataRefinement])

/-- The generator `generate_insights`: the fixed rule pipeline, rules
1-4 in order.
`none` models the `IndexError` the source raises when the history or the
forecast frame is empty (`iloc[-1]`). -/
def generate_insights (forecast : List FRow) (anomalies : List AnomalyRow)
    (history : List HRow) : Option (List Insight × List Recommendation) :=
  match history.getLast?, forecast.getLast? with
  | some hl, some fl =>
    let t := trendPart hl.y fl.yhat
    let p := peakPart history forecast
    let s := summaryPart anomalies
    let c := confidencePart fl
    some (t.1 :: (p.1 ++ s.1 ++ c.1), t.2 ++ p.2 ++ s.2 ++ c.2)
  | _, _ => none

/-! ## Shared lemmas about the float model -/

theorem flt_nan_right (x : FVal) : flt x nan = false := by
  cases x <;> rfl

theorem flt_nan_left (x : FVal) : flt nan x = false := by
  cases x <;> rfl

/-- IEEE `a ≤ b` rules out `b < a`. -/
theorem flt_of_fle (a b : FVal) (h : fle a b = true) : flt b a = false := by
  cases a <;> cases b <;> simp_all [fle, flt]

/-- A value is non-finite exactly when `np.isinf` or `np.isnan` holds. -/
theorem not_finite_iff (x : FVal) : x.isFinite = false ↔ (x.isinf || x.isnan) = true := by
  cases x <;> simp [FVal.isFinite, FVal.isinf, FVal.isnan]

theorem fadd_not_finite (a x : FVal) (h : a.isFinite = false) :
    (fadd a x).isFinite = false := by
  cases a <;> cases x <;> simp_all [fadd, FVal.isFinite]

theorem foldl_fadd_not_finite (l : List FVal) (a : FVal) (h : a.isFinite = false) :
    (l.foldl fadd a).isFinite = false := by
  induction l generalizing a with
  | nil => exact h
  | cons x t ih => exact ih (fadd a x) (fadd_not_finite a x h)

theorem fadd_not_finite_right (a x : FVal) (h : x.isFinite = false) :
    (fadd a x).isFinite = false := by
  cases a <;> cases x <;> simp_all [fadd, FVal.isFinite]

theorem foldl_fadd_exists_not_finite (l : List FVal) (a : FVal)
    (ha : (∃ x ∈ l, x.isFinite = false) ∨ a.isFinite = false) :
    (l.foldl fadd a).isFinite = false := by
  induction l generalizing a with
  | nil =>
    rcases ha with ⟨x, hx, _⟩ | ha
    · cases hx
    · exact ha
  | cons b t ih =>
    simp only [List.foldl_cons]
    apply ih
    rcases ha with ⟨x, hx, hxf⟩ | ha
    · rcases List.mem_cons.1 hx with rfl | hx'
      · exact Or.inr (fadd_not_finite_right a x hxf)
      · exact Or.inl ⟨x, hx', hxf⟩
    · exact Or.inr (fadd_not_finite a b ha)

/-- A numpy sum over a list containing a non-finite value is non-finite. -/
theorem fsum_not_finite (l : List FVal) (h : ∃ x ∈ l, x.isFinite = false) :
    (fsum l).isFinite = false :=
  foldl_fadd_exists_not_finite l (fin 0) (Or.inl h)

theorem fdiv_fin_not_finite (s : FVal) (q : ℚ) (h : s.isFinite = false) :
    (fdiv s (fin q)).isFinite = false := by
  cases s <;> simp_all [fdiv, FVal.isFinite] <;> split_ifs <;> rfl

theorem fmul_fin_pos_not_finite (s : FVal) (q : ℚ) (hq : 0 < q) (h : s.isFinite = false) :
    (fmul s (fin q)).isFinite = false := by
  cases s <;> simp_all [fmul, FVal.isFinite, hq]

theorem fmean_not_finite (l : List FVal) (h : ∃ x ∈ l, x.isFinite = false) :
    (fmean l).isFinite = false :=
  fdiv_fin_not_finite _ _ (fsum_not_finite l h)

/-! ## C1: severity-level thresholds -/

/-- C1: for a computed severity percentage `pct`, the assigned level is
High exactly when `pct > 20`, Medium exactly when `10 < pct ≤ 20`, and
Low exactly when `pct ≤ 10`; both thresholds are strict. -/
theorem classify_severity_thresholds (q : ℚ) :
    (classify_severity (fin q) = "High" ↔ 20 < q) ∧
    (classify_severity (fin q) = "Medium" ↔ 10 < q ∧ q ≤ 20) ∧
    (classify_severity (fin q) = "Low" ↔ q ≤ 10) := by
  by_cases h1 : (20 : ℚ) < q
  · have hc : classify_severity (fin q) = "High" := by
      simp [classify_severity, flt, h1]
    rw [hc]
    refine ⟨⟨fun _ => h1, fun _ => rfl⟩, ⟨?_, ?_⟩, ⟨?_, ?_⟩⟩
    · intro he; exact absurd he (by decide)
    · rintro ⟨_, hle⟩; linarith
    · intro he; exact absurd he (by decide)
    · intro hle; linarith
  · by_cases h2 : (10 : ℚ) < q
    · have hc : classify_severity (fin q) = "Medium" := by
        simp [classify_severity, flt, h1, h2]
      rw [hc]
      refine ⟨⟨?_, ?_⟩, ⟨fun _ => ⟨h2, by linarith⟩, fun _ => rfl⟩, ⟨?_, ?_⟩⟩
      · intro he; exact absurd he (by decide)
      · intro hgt; exact absurd hgt h1
      · intro he; exact absurd he (by decide)
      · intro hle; linarith
    · have hc : classify_severity (fin q) = "Low" := by
        simp [classify_severity, flt, h1, h2]
      rw [hc]
      refine ⟨⟨?_, ?_⟩, ⟨?_, ?_⟩, ⟨fun _ => by linarith, fun _ => rfl⟩⟩
      · intro he; exact absurd he (by decide)
      · intro hgt; exact absurd hgt h1
      · intro he; exact absurd he (by decide)
      · rintro ⟨hgt, _⟩; exact absurd hgt h2

/-! ## C2: the anomaly flag -/

theorem mkAnomaly_inj : Function.Injective mkAnomaly := by
  intro r s h
  cases r; cases s
  simp only [mkAnomaly, AnomalyRow.mk.injEq] at h
  obtain ⟨h1, h2, h3, h4, h5, _, _⟩ := h
  simp only [MergedRow.mk.injEq]
  exact ⟨h1, h2, h4, h5, h3⟩

/-- Membership in the flagged-row stage is exactly the anomaly flag. -/
theorem anomalyRows_mem_iff (merged : List MergedRow) (r : MergedRow)
    (hr : r ∈ merged) :
    mkAnomaly r ∈ anomalyRows merged ↔ is_anomalyRow r = true := by
  constructor
  · intro h
    rcases List.mem_map.1 h with ⟨s, hs, hEq⟩
    have hrs : s = r := mkAnomaly_inj hEq
    subst hrs
    exact (List.mem_filter.1 hs).2
  · intro h
    exact List.mem_map_of_mem _ (List.mem_filter.2 ⟨hr, h⟩)

/-- C2: a historical point joined with its forecast is flagged anomalous
(contributes an anomaly row) exactly when `actual < lower` or
`actual > upper`; consequently a point with `actual = estimate` is never
flagged when the forecast interval satisfies its
`lower ≤ estimate ≤ upper` contract. -/
theorem detect_anomalies_flag (forecast : List FRow) (actuals : List (Int × FVal))
    (r : MergedRow) (hr : r ∈ mergeOn actuals forecast) :
    (mkAnomaly r ∈ detect_anomalies forecast actuals ↔
      (flt r.y r.yhat_lower || flt r.yhat_upper r.y) = true) ∧
    (fle r.yhat_lower r.yhat = true → fle r.yhat r.yhat_upper = true →
      r.y = r.yhat → mkAnomaly r ∉ detect_anomalies forecast actuals) := by
  have hiff : mkAnomaly r ∈ detect_anomalies forecast actuals ↔
      is_anomalyRow r = true := anomalyRows_mem_iff (mergeOn actuals forecast) r hr
  refine ⟨by rw [hiff]; exact Iff.rfl, ?_⟩
  intro h1 h2 h3
  rw [hiff]
  unfold is_anomalyRow
  rw [h3, flt_of_fle _ _ h1, flt_of_fle _ _ h2]
  simp

/-- Witness for C2 at a concrete joined point with
`actual = estimate = 2` inside the interval `[1, 3]`. -/
theorem detect_anomalies_flag_witness :
    mkAnomaly ⟨0, fin 2, fin 1, fin 3, fin 2⟩ ∉
      detect_anomalies [⟨0, fin 2, fin 1, fin 3⟩] [(0, fin 2)] :=
  (detect_anomalies_flag [⟨0, fin 2, fin 1, fin 3⟩] [(0, fin 2)]
      ⟨0, fin 2, fin 1, fin 3, fin 2⟩ (by decide)).2 (by decide) (by decide) rfl

/-! ## C8: unguarded severity division at a zero estimate -/

/-- C8: for a flagged anomalous point with estimate exactly 0 and nonzero
actual, the computed severity percentage is the non-finite value +inf and
the point is classified High. -/
theorem severity_zero_estimate (r : MergedRow) (hflag : is_anomalyRow r = true)
    (h0 : r.yhat = fin 0) (hy : r.y ≠ fin 0) :
    severity_pct r.y r.yhat = inf ∧
    (severity_pct r.y r.yhat).isFinite = false ∧
    (mkAnomaly r).severity_level = "High" := by
  obtain ⟨ds, y, yl, yu, yh⟩ := r
  simp only at h0 hy hflag
  subst h0
  have hpct : severity_pct y (fin 0) = inf := by
    cases y with
    | fin q =>
      have hq : q ≠ 0 := fun h => hy (by rw [h])
      have habs : 0 < rabs q := by rw [rabs_eq]; exact abs_pos.2 hq
      simp [severity_pct, fsub, fneg, fadd, fabs, fdiv, fmul, qadd_eq, habs,
        not_lt.2 habs.le]
    | inf => decide
    | ninf => decide
    | nan =>
      rw [is_anomalyRow] at hflag
      simp only at hflag
      rw [flt_nan_left, flt_nan_right] at hflag
      cases hflag
  refine ⟨hpct, by rw [hpct]; rfl, ?_⟩
  show classify_severity (severity_pct y (fin 0)) = "High"
  rw [hpct]
  decide

/-- Witness for C8: actual 50 against interval `[-10, 10]` with estimate 0. -/
theorem severity_zero_estimate_witness :
    severity_pct (fin 50) (fin 0) = inf ∧
    (severity_pct (fin 50) (fin 0)).isFinite = false ∧
    (mkAnomaly ⟨0, fin 50, fin (-10), fin 10, fin 0⟩).severity_level = "High" :=
  severity_zero_estimate ⟨0, fin 50, fin (-10), fin 10, fin 0⟩
    (by decide) rfl (by decide)

/-! ## C4: the NaN mask of the metrics calculator -/

/-- C4 counterexample: an infinite (non-finite but non-NaN) actual passes
the mask and is aggregated, so MAE becomes +inf instead of the pair being
excluded. -/
theorem validPairs_keeps_infinite :
    (FVal.inf, fin 1) ∈ validPairs [FVal.inf] [fin 1] ∧
    FVal.inf.isFinite = false ∧
    (calculate_metrics [FVal.inf] [fin 1]).MAE = FVal.inf := by decide

/-- C4 (amended): the mask removes exactly the pairs with a missing (NaN)
entry — infinite entries are kept — and when no pair survives, all three
metrics are 0.0. -/
theorem validPairs_mask_nan (y_true y_pred : List FVal) :
    (∀ p ∈ validPairs y_true y_pred, p.1.isnan = false ∧ p.2.isnan = false) ∧
    (validPairs y_true y_pred = [] →
      calculate_metrics y_true y_pred = ⟨fin 0, fin 0, fin 0⟩) := by
  constructor
  · intro p hp
    have hm := (List.mem_filter.1 hp).2
    simp only [Bool.and_eq_true, Bool.not_eq_true'] at hm
    exact hm
  · intro h
    simp [calculate_metrics, h]

/-- Witness for C4 at a list whose only pair is masked out. -/
theorem validPairs_mask_nan_witness :
    calculate_metrics [FVal.nan] [fin 1] = ⟨fin 0, fin 0, fin 0⟩ :=
  (validPairs_mask_nan [FVal.nan] [fin 1]).2 (by decide)

/-! ## C5: the MAPE non-finite guard -/

/-- C5: when the raw mean-absolute-percentage term is non-finite (in
particular whenever a surviving pair has actual 0), the returned MAPE is
overridden to 0.0, while MAE and RMSE keep their normal formulas. -/
theorem mape_guard (y_true y_pred : List FVal)
    (hne : validPairs y_true y_pred ≠ []) :
    ((mapeRaw (validPairs y_true y_pred)).isFinite = false →
      (calculate_metrics y_true y_pred).MAPE = fin 0 ∧
      (calculate_metrics y_true y_pred).MAE =
        froundTo 4 (fmean ((validPairs y_true y_pred).map
          (fun p => fabs (fsub p.1 p.2)))) ∧
      (calculate_metrics y_true y_pred).RMSE =
        froundTo 4 (fsqrt (fmean ((validPairs y_true y_pred).map
          (fun p => fmul (fsub p.1 p.2) (fsub p.1 p.2)))))) ∧
    (∀ b, (fin 0, b) ∈ validPairs y_true y_pred →
      (mapeRaw (validPairs y_true y_pred)).isFinite = false) := by
  constructor
  · intro hnf
    have hguard : ((mapeRaw (validPairs y_true y_pred)).isinf ||
        (mapeRaw (validPairs y_true y_pred)).isnan) = true := (not_finite_iff _).1 hnf
    have h20 : froundTo 2 (fin 0) = fin 0 := by decide
    refine ⟨?_, ?_, ?_⟩ <;> simp [calculate_metrics, hne, hguard, h20]
  · intro b hb
    have hmem : fabs (fdiv (fsub (fin 0) b) (fin 0)) ∈
        (validPairs y_true y_pred).map (fun p => fabs (fdiv (fsub p.1 p.2) p.1)) :=
      List.mem_map_of_mem _ hb
    have hterm : (fabs (fdiv (fsub (fin 0) b) (fin 0))).isFinite = false := by
      cases b <;> simp [fsub, fneg, fadd, fdiv, fabs, FVal.isFinite] <;>
        split_ifs <;> simp [fabs, FVal.isFinite]
    unfold mapeRaw
    exact fmul_fin_pos_not_finite _ 100 (by norm_num)
      (fmean_not_finite _ ⟨_, hmem, hterm⟩)

/-- Witness for C5: the first actual is 0, making the raw MAPE term +inf
and the returned MAPE 0. -/
theorem mape_guard_witness :
    (calculate_metrics [fin 0, fin 2] [fin 1, fin 2]).MAPE = fin 0 :=
  ((mape_guard [fin 0, fin 2] [fin 1, fin 2] (by decide)).1 (by decide)).1

/-! ## Shared lemmas about the insight pipeline -/

theorem trendPart_shape (c f : FVal) :
    (∃ i d p, (trendPart c f).1 = Insight.trend i d p) ∧
    (trendPart c f).2.length = 1 ∧
    (∀ r ∈ (trendPart c f).2, r.isTrendRec = true) := by
  unfold trendPart
  dsimp only
  refine ⟨⟨_, _, _, rfl⟩, ?_, ?_⟩ <;>
    split_ifs <;> simp [Recommendation.isTrendRec]

theorem peakPart_shape (h : List HRow) (f : List FRow) :
    ((peakPart h f).1 = [] ∧ (peakPart h f).2 = []) ∨
    (∃ ds v, (peakPart h f).1 = [Insight.peak ds v] ∧
      (peakPart h f).2 = [Recommendation.peakReadiness ds]) := by
  unfold peakPart
  dsimp only
  rcases hE : argmaxYhat (List.filter (fun r => decide (maxDs h < r.ds)) f) with _ | r
  · exact Or.inl ⟨rfl, rfl⟩
  · exact Or.inr ⟨r.ds, r.yhat, rfl, rfl⟩

theorem peakPart_facts (h : List HRow) (f : List FRow) :
    (peakPart h f).1.length ≤ 1 ∧ (peakPart h f).2.length ≤ 1 ∧
    (∀ x ∈ (peakPart h f).1, x.rule = 2 ∧ x.isPeak = true) ∧
    (∀ r ∈ (peakPart h f).2, r.isTrendRec = false) := by
  rcases peakPart_shape h f with ⟨h1, h2⟩ | ⟨ds, v, h1, h2⟩ <;> rw [h1, h2] <;>
    simp [Insight.rule, Insight.isPeak, Recommendation.isTrendRec]

theorem summaryPart_facts (anomalies : List AnomalyRow) :
    1 ≤ (summaryPart anomalies).1.length ∧ (summaryPart anomalies).1.length ≤ 2 ∧
    (summaryPart anomalies).2.length ≤ 1 ∧
    (∀ x ∈ (summaryPart anomalies).1, x.rule = 3) ∧
    (∃ x ∈ (summaryPart anomalies).1, x.isSummary = true) ∧
    (∀ r ∈ (summaryPart anomalies).2, r.isTrendRec = false) := by
  unfold summaryPart
  by_cases h1 : anomalies.isEmpty
  · simp [h1, Insight.rule, Insight.isSummary]
  · by_cases h2 : (anomalies.filter (fun a => a.severity_level = "High")).isEmpty <;>
      simp [h1, h2, Insight.rule, Insight.isSummary, Recommendation.isTrendRec]

theorem confidencePart_facts (lp : FRow) :
    (confidencePart lp).1.length = 1 ∧ (confidencePart lp).2.length ≤ 1 ∧
    (∀ x ∈ (confidencePart lp).1, x.rule = 4) ∧
    (∃ x ∈ (confidencePart lp).1, x.isConfidence = true) ∧
    (∀ r ∈ (confidencePart lp).2, r.isTrendRec = false) := by
  unfold confidencePart
  dsimp only
  split_ifs <;>
    simp [Insight.rule, Insight.isConfidence, Recommendation.isTrendRec]

theorem generate_insights_eq (forecast : List FRow) (anomalies : List AnomalyRow)
    (history : List HRow) (out : List Insight × List Recommendation)
    (h : generate_insights forecast anomalies history = some out) :
    ∃ hl fl, history.getLast? = some hl ∧ forecast.getLast? = some fl ∧
      out = ((trendPart hl.y fl.yhat).1 ::
               ((peakPart history forecast).1 ++ (summaryPart anomalies).1 ++
                 (confidencePart fl).1),
             (trendPart hl.y fl.yhat).2 ++ (peakPart history forecast).2 ++
               (summaryPart anomalies).2 ++ (confidencePart fl).2) := by
  unfold generate_insights at h
  rcases hh : history.getLast? with _ | hl <;> rw [hh] at h
  · cases h
  · rcases hf : forecast.getLast? with _ | fl <;> rw [hf] at h
    · cases h
    · refine ⟨hl, fl, rfl, rfl, ?_⟩
      injection h with h
      exact h.symm

theorem rule_of_isPeak (x : Insight) (h : x.isPeak = true) : x.rule = 2 := by
  cases x <;> simp_all [Insight.isPeak, Insight.rule]

theorem rule_of_isCritical (x : Insight) (h : x.isCritical = true) : x.rule = 3 := by
  cases x <;> simp_all [Insight.isCritical, Insight.rule]

theorem pairwise_of_length_le_one {α : Type} {R : α → α → Prop} (l : List α)
    (h : l.length ≤ 1) : List.Pairwise R l := by
  match l with
  | [] => exact List.Pairwise.nil
  | [a] => exact List.pairwise_singleton R a
  | a :: b :: t => simp at h

theorem pairwise_of_forall {α : Type} {R : α → α → Prop} (l : List α)
    (h : ∀ x ∈ l, ∀ y ∈ l, R x y) : List.Pairwise R l := by
  induction l with
  | nil => exact List.Pairwise.nil
  | cons a t ih =>
    constructor
    · intro y hy
      exact h a (List.mem_cons_self a t) y (List.mem_cons_of_mem a hy)
    · exact ih (fun x hx y hy =>
        h x (List.mem_cons_of_mem a hx) y (List.mem_cons_of_mem a hy))

/-! ## C3: insight emission order -/

/-- C3: the emitted insight at index 0 is the trend insight; every
critical-volatility insight appears strictly after it and strictly after
any peak insight; the whole list is ordered by emitting rule (trend,
peak, anomaly summary, confidence). -/
theorem insights_rule_order (forecast : List FRow) (anomalies : List AnomalyRow)
    (history : List HRow) (out : List Insight × List Recommendation)
    (h : generate_insights forecast anomalies history = some out) :
    (∃ i d p, out.1.head? = some (Insight.trend i d p)) ∧
    List.Pairwise (fun a b => a.rule ≤ b.rule) out.1 ∧
    (∀ j : Fin out.1.length, (out.1.get j).isCritical = true →
      0 < (j : ℕ) ∧
      ∀ i : Fin out.1.length, (out.1.get i).isPeak = true → (i : ℕ) < (j : ℕ)) := by
  obtain ⟨hl, fl, hh, hf, hout⟩ := generate_insights_eq forecast anomalies history out h
  obtain ⟨⟨ti, td, tp, htrend⟩, -, -⟩ := trendPart_shape hl.y fl.yhat
  obtain ⟨-, -, hpmem, -⟩ := peakPart_facts history forecast
  obtain ⟨-, -, -, hsmem, -, -⟩ := summaryPart_facts anomalies
  obtain ⟨-, -, hcmem, -, -⟩ := confidencePart_facts fl
  subst hout
  dsimp only
  have htr1 : (trendPart hl.y fl.yhat).1.rule = 1 := by
    rw [htrend]; rfl
  have hpw : List.Pairwise (fun a b => Insight.rule a ≤ Insight.rule b)
      ((trendPart hl.y fl.yhat).1 ::
        ((peakPart history forecast).1 ++ (summaryPart anomalies).1 ++
          (confidencePart fl).1)) := by
    constructor
    · intro x hx
      rw [htr1]
      rcases List.mem_append.1 hx with hx' | hcx
      · rcases List.mem_append.1 hx' with hpx | hsx
        · rw [(hpmem x hpx).1]; omega
        · rw [hsmem x hsx]; omega
      · rw [hcmem x hcx]; omega
    · apply List.pairwise_append.2
      refine ⟨?_, ?_, ?_⟩
      · apply List.pairwise_append.2
        refine ⟨?_, ?_, ?_⟩
        · exact pairwise_of_forall _ (fun x hx y hy => by
            rw [(hpmem x hx).1, (hpmem y hy).1])
        · exact pairwise_of_forall _ (fun x hx y hy => by
            rw [hsmem x hx, hsmem y hy])
        · intro a ha b hb
          rw [(hpmem a ha).1, hsmem b hb]; omega
      · exact pairwise_of_forall _ (fun x hx y hy => by
          rw [hcmem x hx, hcmem y hy])
      · intro a ha b hb
        rcases List.mem_append.1 ha with hap | has
        · rw [(hpmem a hap).1, hcmem b hb]; omega
        · rw [hsmem a has, hcmem b hb]; omega
  refine ⟨⟨ti, td, tp, by rw [List.head?_cons, htrend]⟩, hpw, ?_⟩
  intro j hcrit
  have hmono := List.pairwise_iff_get.1 hpw
  have hlen : 0 < ((trendPart hl.y fl.yhat).1 ::
      ((peakPart history forecast).1 ++ (summaryPart anomalies).1 ++
        (confidencePart fl).1)).length := Nat.succ_pos _
  have hget0 : (((trendPart hl.y fl.yhat).1 ::
      ((peakPart history forecast).1 ++ (summaryPart anomalies).1 ++
        (confidencePart fl).1)).get ⟨0, hlen⟩) = (trendPart hl.y fl.yhat).1 := rfl
  have hj0 : 0 < (j : ℕ) := by
    by_contra h0
    push_neg at h0
    have hj : j = ⟨0, hlen⟩ := Fin.ext (Nat.le_zero.1 h0)
    rw [hj, hget0, htrend] at hcrit
    simp [Insight.isCritical] at hcrit
  refine ⟨hj0, ?_⟩
  intro i hpeak
  rcases Nat.lt_trichotomy (i : ℕ) (j : ℕ) with hlt | heq | hgt
  · exact hlt
  · exfalso
    have hij : i = j := Fin.ext heq
    rw [hij] at hpeak
    have h2 := rule_of_isPeak _ hpeak
    have h3 := rule_of_isCritical _ hcrit
    omega
  · exfalso
    have hle := hmono j i (by exact hgt)
    rw [rule_of_isCritical _ hcrit, rule_of_isPeak _ hpeak] at hle
    omega

/-- Witness for C3 on a one-point history, one future forecast point, and
one High-severity anomaly. -/
theorem insights_rule_order_witness :
    ∃ i d p,
      (([Insight.trend "Significant" "growth" (fin 20), Insight.peak 1 (fin 120),
         Insight.criticalVolatility 1, Insight.statisticalStability 1,
         Insight.variableForecast] : List Insight).head? = some (Insight.trend i d p)) :=
  (insights_rule_order [⟨1, fin 120, fin 110, fin 130⟩]
    [⟨0, fin 50, fin 0, fin (-10), fin 10, fin 50, "High"⟩]
    [⟨0, fin 100⟩]
    ([Insight.trend "Significant" "growth" (fin 20), Insight.peak 1 (fin 120),
      Insight.criticalVolatility 1, Insight.statisticalStability 1,
      Insight.variableForecast],
     [Recommendation.scaleOperations, Recommendation.peakReadiness 1,
      Recommendation.riskMitigation, Recommendation.dataRefinement])
    (by decide)).1

/-! ## C9: output-size invariants of the insight generator -/

/-- C9: a successful run emits between 3 and 5 insights (the first being
the trend insight, with an anomaly-summary and a confidence insight
always present) and between 1 and 4 recommendations, exactly one of
which is the trend recommendation. -/
theorem insights_bounds (forecast : List FRow) (anomalies : List AnomalyRow)
    (history : List HRow) (out : List Insight × List Recommendation)
    (h : generate_insights forecast anomalies history = some out) :
    3 ≤ out.1.length ∧ out.1.length ≤ 5 ∧
    1 ≤ out.2.length ∧ out.2.length ≤ 4 ∧
    (out.2.filter Recommendation.isTrendRec).length = 1 ∧
    (∃ x ∈ out.1, x.isSummary = true) ∧
    (∃ x ∈ out.1, x.isConfidence = true) ∧
    (∃ i d p, out.1.head? = some (Insight.trend i d p)) := by
  obtain ⟨hl, fl, hh, hf, hout⟩ := generate_insights_eq forecast anomalies history out h
  obtain ⟨⟨ti, td, tp, htrend⟩, htlen, htall⟩ := trendPart_shape hl.y fl.yhat
  obtain ⟨hp1len, hp2len, -, hp2f⟩ := peakPart_facts history forecast
  obtain ⟨hs1ge, hs1le, hs2len, -, hssum, hs2f⟩ := summaryPart_facts anomalies
  obtain ⟨hc1len, hc2len, -, hcconf, hc2f⟩ := confidencePart_facts fl
  subst hout
  dsimp only
  have hfilter : (((trendPart hl.y fl.yhat).2 ++ (peakPart history forecast).2 ++
      (summaryPart anomalies).2 ++ (confidencePart fl).2).filter
        Recommendation.isTrendRec).length = 1 := by
    rw [List.filter_append, List.filter_append, List.filter_append]
    rw [List.filter_eq_self.2 htall]
    rw [List.filter_eq_nil_iff.2 (fun a ha => by simp [hp2f a ha])]
    rw [List.filter_eq_nil_iff.2 (fun a ha => by simp [hs2f a ha])]
    rw [List.filter_eq_nil_iff.2 (fun a ha => by simp [hc2f a ha])]
    simpa using htlen
  obtain ⟨xs, hxs, hxsum⟩ := hssum
  obtain ⟨xc, hxc, hxconf⟩ := hcconf
  refine ⟨?_, ?_, ?_, ?_, hfilter, ?_, ?_, ⟨ti, td, tp, ?_⟩⟩
  · simp only [List.length_cons, List.length_append]; omega
  · simp only [List.length_cons, List.length_append]; omega
  · simp only [List.length_append]; omega
  · simp only [List.length_append]; omega
  · exact ⟨xs, List.mem_cons_of_mem _
      (List.mem_append_left _ (List.mem_append_right _ hxs)), hxsum⟩
  · exact ⟨xc, List.mem_cons_of_mem _
      (List.mem_append_right _ hxc), hxconf⟩
  · rw [List.head?_cons, htrend]

/-- Witness for C9 on a one-point history with no anomalies and no
future forecast point (horizon 0): exactly 3 insights, 1 recommendation. -/
theorem insights_bounds_witness :
    3 ≤ ([Insight.trend "Minimal" "decline" (fin 0),
          Insight.operationalStability, Insight.highConfidence] : List Insight).length :=
  (insights_bounds [⟨0, fin 100, fin 99, fin 101⟩] [] [⟨0, fin 100⟩]
    ([Insight.trend "Minimal" "decline" (fin 0),
      Insight.operationalStability, Insight.highConfidence],
     [Recommendation.costOptimization])
    (by decide)).1

/-! ## Shared lemmas about the table model -/

theorem getD_set_self {α : Type} (l : List α) (i : ℕ) (v d : α) :
    (l.set i v).getD i d = if i < l.length then v else d := by
  induction l generalizing i with
  | nil => simp
  | cons a t ih =>
    cases i with
    | zero => simp
    | succ k => simpa [Nat.succ_lt_succ_iff] using ih k

theorem getD_set_ne {α : Type} (l : List α) {i j : ℕ} (h : j ≠ i) (v d : α) :
    (l.set j v).getD i d = l.getD i d := by
  rw [List.getD_eq_getElem?_getD, List.getElem?_set_ne h, ← List.getD_eq_getElem?_getD]

theorem set_getD_self {α : Type} (l : List α) (i : ℕ) (d : α) (h : i < l.length) :
    l.set i (l.getD i d) = l := by
  induction l generalizing i with
  | nil => rfl
  | cons a t ih =>
    cases i with
    | zero => simp
    | succ k => simpa using ih k (Nat.succ_lt_succ_iff.1 h)

theorem hdrIdx_spec (hs : List (String × DType)) (c : String) (i : ℕ)
    (h : hdrIdx hs c = some i) :
    i < hs.length ∧ (hs.getD i ("", DType.obj)).1 = c := by
  induction hs generalizing i with
  | nil => cases h
  | cons a t ih =>
    rw [hdrIdx] at h
    split_ifs at h with ha
    · injection h with h
      subst h
      exact ⟨Nat.succ_pos _, ha⟩
    · rcases ho : hdrIdx t c with _ | k
      · rw [ho] at h; cases h
      · rw [ho] at h
        have h' : k + 1 = i := by simpa using h
        subst h'
        obtain ⟨hk1, hk2⟩ := ih k ho
        exact ⟨Nat.succ_lt_succ hk1, by simpa using hk2⟩

theorem hdrIdx_of_mem (hs : List (String × DType)) (c : String)
    (h : c ∈ hs.map (fun p => p.1)) : ∃ i, hdrIdx hs c = some i := by
  induction hs with
  | nil => simp at h
  | cons a t ih =>
    rw [hdrIdx]
    by_cases ha : a.1 = c
    · exact ⟨0, by simp [ha]⟩
    · simp only [List.map_cons, List.mem_cons] at h
      rcases h with h | h
      · exact absurd h.symm ha
      · obtain ⟨i, hi⟩ := ih h
        exact ⟨i + 1, by simp [ha, hi]⟩

theorem hdrIdx_congr (hs hs' : List (String × DType)) (c : String)
    (h : hs.map (fun p => p.1) = hs'.map (fun p => p.1)) :
    hdrIdx hs c = hdrIdx hs' c := by
  induction hs generalizing hs' with
  | nil =>
    cases hs' with
    | nil => rfl
    | cons b t' => simp at h
  | cons a t ih =>
    cases hs' with
    | nil => simp at h
    | cons b t' =>
      simp only [List.map_cons, List.cons.injEq] at h
      rw [hdrIdx, hdrIdx, h.1, ih t' h.2]

theorem map_fst_set (hs : List (String × DType)) (i : ℕ) (c : String) (dt : DType)
    (hname : (hs.getD i ("", DType.obj)).1 = c) :
    (hs.set i (c, dt)).map (fun p => p.1) = hs.map (fun p => p.1) := by
  induction hs generalizing i with
  | nil => simp
  | cons a t ih =>
    cases i with
    | zero =>
      simp only [List.getD_cons_zero] at hname
      simp [hname]
    | succ k =>
      simp only [List.getD_cons_succ] at hname
      simp [ih k hname]

theorem coerceCell_cases (cell : Cell) :
    (∃ q, coerceCell cell = Cell.num q) ∨ coerceCell cell = Cell.nan := by
  cases cell with
  | num q => exact Or.inl ⟨q, rfl⟩
  | nan => exact Or.inr rfl
  | str s =>
    rw [coerceCell]
    rcases parseRatStr s with _ | q
    · exact Or.inr rfl
    · exact Or.inl ⟨q, rfl⟩

theorem detectDate_mem (df : DF) (d : String) (h : detectDate df = some d) :
    d ∈ df.names := by
  rw [detectDate] at h
  split_ifs at h with hds
  · injection h with h
    subst h
    exact hds
  · exact List.mem_of_find?_eq_some h

theorem detectDate_props (df : DF) (d : String) (h : detectDate df = some d) :
    d ≠ "y" ∧ d ≠ "" := by
  rw [detectDate] at h
  split_ifs at h with hds
  · injection h with h
    subst h
    exact ⟨by decide, by decide⟩
  · have hp : sLower d ∈ dateNames := by simpa using List.find?_some h
    constructor <;> rintro rfl <;> revert hp <;> decide

theorem detectTarget_mem_ne (df : DF) (d t : String) (hd : d ≠ "y")
    (h : detectTarget df d = some t) : t ∈ df.names ∧ t ≠ d := by
  rw [detectTarget] at h
  dsimp only at h
  split_ifs at h with hy hf1 hf2
  · injection h with h
    subst h
    exact ⟨hy, fun hEq => hd hEq.symm⟩
  · rcases hl : (df.names.filter (fun c => c ≠ d)).filter
        (fun c => df.dtypeOf c = some DType.numeric) with _ | ⟨x, xs⟩ <;>
      rw [hl] at h
    · cases h
    · injection h with h
      subst h
      have hx : x ∈ (df.names.filter (fun c => c ≠ d)).filter
          (fun c => df.dtypeOf c = some DType.numeric) := by
        rw [hl]; exact List.mem_cons_self x xs
      have hx2 := (List.mem_filter.1 hx).1
      have hx3 := List.mem_filter.1 hx2
      exact ⟨hx3.1, by simpa using hx3.2⟩
  · have hmem := List.mem_of_find?_eq_some h
    have hx := List.mem_filter.1 hmem
    exact ⟨hx.1, by simpa using hx.2⟩
  · have hmem := List.mem_of_find?_eq_some h
    have hx := List.mem_filter.1 hmem
    exact ⟨hx.1, by simpa using hx.2⟩

/-- Shape of every successful `normalize_columns` result: exactly the
headers `ds` then `y` (the latter numeric) and rows that are pairs whose
second cell is a present number. -/
theorem normalize_ok_shape (df out : DF) (h : normalize_columns df = .ok out) :
    ∃ dt rows, out = ⟨[("ds", dt), ("y", DType.numeric)], rows⟩ ∧
      ∀ r ∈ rows, ∃ c q, r = [c, Cell.num q] := by
  unfold normalize_columns at h
  rcases hd : detectDate df with _ | d <;> rw [hd] at h <;> dsimp only at h
  · cases h
  by_cases hde : d = ""
  · rw [if_pos hde] at h; cases h
  rw [if_neg hde] at h
  rcases ht : detectTarget df d with _ | t <;> rw [ht] at h <;> dsimp only at h
  · cases h
  by_cases hte : t = ""
  · rw [if_pos hte] at h; cases h
  rw [if_neg hte] at h
  injection h with h
  obtain ⟨hdy, hdne⟩ := detectDate_props df d hd
  have hdmem := detectDate_mem df d hd
  obtain ⟨htmem, htne⟩ := detectTarget_mem_ne df d t hdy ht
  subst h
  set df1 := renameCols df d t with hdf1
  have hnames1 : df1.headers.map (fun p => p.1) = df.names.map
      (fun n => if n = d then "ds" else if n = t then "y" else n) := by
    simp [hdf1, renameCols, DF.names, List.map_map]
  have hy_mem : "y" ∈ df1.headers.map (fun p => p.1) := by
    rw [hnames1]
    refine List.mem_map.2 ⟨t, htmem, ?_⟩
    rw [if_neg htne, if_pos rfl]
  have hds_mem : "ds" ∈ df1.headers.map (fun p => p.1) := by
    rw [hnames1]
    exact List.mem_map.2 ⟨d, hdmem, if_pos rfl⟩
  obtain ⟨iy, hiy⟩ := hdrIdx_of_mem df1.headers "y" hy_mem
  obtain ⟨hylt, hyname⟩ := hdrIdx_spec df1.headers "y" iy hiy
  have hcol1 : df1.colIdx "y" = some iy := hiy
  have hdf2 : toNumericCol df1 "y" = ⟨df1.headers.set iy ("y", DType.numeric),
      df1.rows.map (fun r => r.set iy (coerceCell (r.getD iy Cell.nan)))⟩ := by
    unfold toNumericCol
    rw [hcol1]
  rw [hdf2]
  set hs2 := df1.headers.set iy ("y", DType.numeric) with hhs2
  set rows2 := df1.rows.map (fun r => r.set iy (coerceCell (r.getD iy Cell.nan)))
    with hrows2
  have hnames2 : hs2.map (fun p => p.1) = df1.headers.map (fun p => p.1) :=
    map_fst_set df1.headers iy "y" DType.numeric hyname
  have hiy2 : hdrIdx hs2 "y" = some iy := by
    rw [hdrIdx_congr hs2 df1.headers "y" hnames2]
    exact hiy
  have hcol2 : DF.colIdx ⟨hs2, rows2⟩ "y" = some iy := hiy2
  have hdf3 : dropnaCol ⟨hs2, rows2⟩ "y" = ⟨hs2,
      rows2.filter (fun r => r.getD iy Cell.nan ≠ Cell.nan)⟩ := by
    unfold dropnaCol
    rw [hcol2]
  rw [hdf3]
  set rows3 := rows2.filter (fun r => r.getD iy Cell.nan ≠ Cell.nan) with hrows3
  have hds_mem2 : "ds" ∈ hs2.map (fun p => p.1) := by
    rw [hnames2]; exact hds_mem
  obtain ⟨i0, hi0⟩ := hdrIdx_of_mem hs2 "ds" hds_mem2
  obtain ⟨h0lt, h0name⟩ := hdrIdx_spec hs2 "ds" i0 hi0
  have hyname2 : hs2.getD iy ("", DType.obj) = ("y", DType.numeric) := by
    rw [hhs2, getD_set_self, if_pos hylt]
  have hcol3ds : DF.colIdx ⟨hs2, rows3⟩ "ds" = some i0 := hi0
  have hcol3y : DF.colIdx ⟨hs2, rows3⟩ "y" = some iy := hiy2
  have hsel : selectCols ⟨hs2, rows3⟩ ["ds", "y"] =
      ⟨[hs2.getD i0 ("", DType.obj), ("y", DType.numeric)],
       rows3.map (fun r => [r.getD i0 Cell.nan, r.getD iy Cell.nan])⟩ := by
    unfold selectCols
    simp [hcol3ds, hcol3y]
    rw [← List.getD_eq_getElem?_getD]
    exact hyname2
  rw [hsel]
  refine ⟨(hs2.getD i0 ("", DType.obj)).2,
    rows3.map (fun r => [r.getD i0 Cell.nan, r.getD iy Cell.nan]), ?_, ?_⟩
  · have hpair : hs2.getD i0 ("", DType.obj) =
        ("ds", (hs2.getD i0 ("", DType.obj)).2) := by
      rw [← h0name]
    rw [← hpair]
  · intro r hr
    obtain ⟨r2, hr2, hrEq⟩ := List.mem_map.1 hr
    have hr2f := List.mem_filter.1 hr2
    obtain ⟨r1, hr1, hr1Eq⟩ := List.mem_map.1 hr2f.1
    have hpred : r2.getD iy Cell.nan ≠ Cell.nan := by simpa using hr2f.2
    have hval : r2.getD iy Cell.nan =
        if iy < r1.length then coerceCell (r1.getD iy Cell.nan) else Cell.nan := by
      rw [← hr1Eq, getD_set_self]
    by_cases hlt : iy < r1.length
    · rw [if_pos hlt] at hval
      rcases coerceCell_cases (r1.getD iy Cell.nan) with ⟨q, hq⟩ | hq
      · exact ⟨r2.getD i0 Cell.nan, q, by rw [← hrEq, hval, hq]⟩
      · exact absurd (by rw [hval, hq]) hpred
    · rw [if_neg hlt] at hval
      exact absurd hval hpred

/-- Running `normalize_columns` on a table of the canonical output shape
returns it unchanged. -/
theorem normalize_ok_on_shape (dt : DType) (rows : List (List Cell))
    (hrows : ∀ r ∈ rows, ∃ c q, r = [c, Cell.num q]) :
    normalize_columns ⟨[("ds", dt), ("y", DType.numeric)], rows⟩ =
      .ok ⟨[("ds", dt), ("y", DType.numeric)], rows⟩ := by
  have hd : detectDate ⟨[("ds", dt), ("y", DType.numeric)], rows⟩ = some "ds" := by
    rw [detectDate, if_pos]
    simp [DF.names]
  have ht : detectTarget ⟨[("ds", dt), ("y", DType.numeric)], rows⟩ "ds" = some "y" := by
    rw [detectTarget, if_pos]
    simp [DF.names]
  unfold normalize_columns
  rw [hd]
  dsimp only
  rw [if_neg (by decide), ht]
  dsimp only
  rw [if_neg (by decide)]
  have hrename : renameCols ⟨[("ds", dt), ("y", DType.numeric)], rows⟩ "ds" "y" =
      ⟨[("ds", dt), ("y", DType.numeric)], rows⟩ := by
    simp [renameCols]
  rw [hrename]
  have hnum : toNumericCol ⟨[("ds", dt), ("y", DType.numeric)], rows⟩ "y" =
      ⟨[("ds", dt), ("y", DType.numeric)], rows⟩ := by
    unfold toNumericCol
    have hcol : DF.colIdx ⟨[("ds", dt), ("y", DType.numeric)], rows⟩ "y" = some 1 := by
      simp [DF.colIdx, hdrIdx]
    rw [hcol]
    simp only [DF.mk.injEq]
    constructor
    · simp
    · have : ∀ r ∈ rows, r.set 1 (coerceCell (r.getD 1 Cell.nan)) = r := by
        intro r hr
        obtain ⟨c, q, rfl⟩ := hrows r hr
        rfl
      rw [List.map_congr_left this]
      exact List.map_id rows
  rw [hnum]
  have hdrop : dropnaCol ⟨[("ds", dt), ("y", DType.numeric)], rows⟩ "y" =
      ⟨[("ds", dt), ("y", DType.numeric)], rows⟩ := by
    unfold dropnaCol
    have hcol : DF.colIdx ⟨[("ds", dt), ("y", DType.numeric)], rows⟩ "y" = some 1 := by
      simp [DF.colIdx, hdrIdx]
    rw [hcol]
    simp only [DF.mk.injEq, true_and]
    apply List.filter_eq_self.2
    intro r hr
    obtain ⟨c, q, rfl⟩ := hrows r hr
    simp
  rw [hdrop]
  have hsel : selectCols ⟨[("ds", dt), ("y", DType.numeric)], rows⟩ ["ds", "y"] =
      ⟨[("ds", dt), ("y", DType.numeric)], rows⟩ := by
    have hcds : DF.colIdx ⟨[("ds", dt), ("y", DType.numeric)], rows⟩ "ds" = some 0 := by
      simp [DF.colIdx, hdrIdx]
    have hcy : DF.colIdx ⟨[("ds", dt), ("y", DType.numeric)], rows⟩ "y" = some 1 := by
      simp [DF.colIdx, hdrIdx]
    unfold selectCols
    simp only [DF.mk.injEq]
    constructor
    · simp [hcds, hcy]
    · have hrow : ∀ r ∈ rows, (List.filterMap (fun c =>
          (DF.colIdx ⟨[("ds", dt), ("y", DType.numeric)], rows⟩ c).map
            (fun i => r.getD i Cell.nan)) ["ds", "y"]) = r := by
        intro r hr
        obtain ⟨c, q, rfl⟩ := hrows r hr
        simp [hcds, hcy]
      rw [List.map_congr_left hrow]
      exact List.map_id rows
  rw [hsel]

/-! ## C6: idempotence of the normalizer -/

/-- C6: applying `normalize_columns` to any of its own successful outputs
returns that table unchanged. -/
theorem normalize_columns_idempotent (df out : DF)
    (h : normalize_columns df = .ok out) :
    normalize_columns out = .ok out := by
  obtain ⟨dt, rows, rfl, hrows⟩ := normalize_ok_shape df out h
  exact normalize_ok_on_shape dt rows hrows

/-- Witness for C6 on a concrete raw table. -/
theorem normalize_columns_idempotent_witness :
    normalize_columns ⟨[("ds", DType.obj), ("y", DType.numeric)],
        [[Cell.str "2024-01-01", Cell.num 3]]⟩ =
      .ok ⟨[("ds", DType.obj), ("y", DType.numeric)],
        [[Cell.str "2024-01-01", Cell.num 3]]⟩ :=
  normalize_columns_idempotent
    ⟨[("Date", DType.obj), ("Sales", DType.numeric)],
     [[Cell.str "2024-01-01", Cell.num 3],
      [Cell.str "2024-01-02", Cell.nan],
      [Cell.str "2024-01-03", Cell.str "oops"]]⟩
    ⟨[("ds", DType.obj), ("y", DType.numeric)],
     [[Cell.str "2024-01-01", Cell.num 3]]⟩
    (by decide)

/-! ## C10: the normalized target column has no missing values -/

/-- C10: every row of a successful `normalize_columns` output carries a
present numeric value in the `y` column (index 1): rows that fail numeric
coercion and rows already missing are both dropped. -/
theorem normalize_y_present (df out : DF) (h : normalize_columns df = .ok out) :
    ∀ r ∈ out.rows, ∃ q, r.getD 1 Cell.nan = Cell.num q := by
  obtain ⟨dt, rows, rfl, hrows⟩ := normalize_ok_shape df out h
  intro r hr
  obtain ⟨c, q, rfl⟩ := hrows r hr
  exact ⟨q, rfl⟩

/-- Witness for C10: a table with one clean row, one already-missing
value, and one non-coercible value keeps only the clean row. -/
theorem normalize_y_present_witness :
    ∃ q, ([Cell.str "d1", Cell.num 3] : List Cell).getD 1 Cell.nan = Cell.num q :=
  normalize_y_present
    ⟨[("date", DType.obj), ("sales", DType.numeric)],
     [[Cell.str "d1", Cell.num 3],
      [Cell.str "d2", Cell.nan],
      [Cell.str "d3", Cell.str "x"]]⟩
    ⟨[("ds", DType.obj), ("y", DType.numeric)], [[Cell.str "d1", Cell.num 3]]⟩
    (by decide)
    [Cell.str "d1", Cell.num 3] (by decide)

/-! ## C7: target-column selection priority -/

/-- Modelled from the spec (§4.1 target-column detection), for comparison
with the `detectTarget` of the code: over the columns excluding the chosen
date column, first a column named exactly `y`; else the first column
whose lower-cased name is `y`; else the first whose lower-cased name is
a common value name; else the first numeric-dtyped column. -/
def specTargetCol (df : DF) (date_col : String) : Option String :=
  let potential := df.names.filter (fun c => c ≠ date_col)
  (potential.find? (fun c => c = "y")).orElse (fun _ =>
    (potential.find? (fun c => sLower c = "y")).orElse (fun _ =>
      (potential.find? (fun c => sLower c ∈ commonNames)).orElse (fun _ =>
        (potential.filter (fun c => df.dtypeOf c = some DType.numeric)).head?)))

theorem find?_self_of_mem (l : List String) (a : String) (h : a ∈ l) :
    l.find? (fun c => c = a) = some a := by
  induction l with
  | nil => cases h
  | cons b t ih =>
    rw [List.find?_cons]
    by_cases hb : b = a
    · subst hb
      simp
    · have hf : (decide (b = a)) = false := by simp [hb]
      rw [hf]
      rcases List.mem_cons.1 h with hEq | hmem
      · exact absurd hEq.symm hb
      · exact ih hmem

theorem sLower_ne_empty_of_y (c : String) (h : sLower c = "y") : c ≠ "" := by
  rintro rfl
  exact absurd h (by decide)

theorem sLower_ne_empty_of_common (c : String) (h : sLower c ∈ commonNames) :
    c ≠ "" := by
  rintro rfl
  revert h
  decide

/-- The target detection of the code agrees with the priority rule of the
spec. -/
theorem detectTarget_eq_spec (df : DF) (d : String) (hd : d ≠ "y") :
    detectTarget df d = specTargetCol df d := by
  rw [detectTarget, specTargetCol]
  dsimp only
  by_cases hy : "y" ∈ df.names
  · rw [if_pos hy]
    have hyp : "y" ∈ df.names.filter (fun c => c ≠ d) :=
      List.mem_filter.2 ⟨hy, by simpa using fun hEq => hd hEq.symm⟩
    rw [find?_self_of_mem _ "y" hyp]
    rfl
  · rw [if_neg hy]
    have hnone : (df.names.filter (fun c => c ≠ d)).find? (fun c => c = "y") = none := by
      rw [List.find?_eq_none]
      intro x hx
      simp only [decide_eq_true_eq]
      intro hEq
      exact hy (hEq ▸ (List.mem_filter.1 hx).1)
    rw [hnone]
    rcases h1 : (df.names.filter (fun c => c ≠ d)).find? (fun c => sLower c = "y")
        with _ | c1
    · rcases h2 : (df.names.filter (fun c => c ≠ d)).find?
          (fun c => sLower c ∈ commonNames) with _ | c2
      · rfl
      · have hc2 : sLower c2 ∈ commonNames := by simpa using List.find?_some h2
        have hne2 : c2 ≠ "" := sLower_ne_empty_of_common c2 hc2
        simp [pyFalsy, hne2, Option.orElse]
    · have hc1 : sLower c1 = "y" := by simpa using List.find?_some h1
      have hne1 : c1 ≠ "" := sLower_ne_empty_of_y c1 hc1
      simp [pyFalsy, hne1, Option.orElse]

/-- The no-target error of `normalize_columns` fires exactly on Python
falsiness (absence or empty name) of the detected target. -/
theorem normalize_error_iff (df : DF) (d : String) (hd : detectDate df = some d)
    (hne : d ≠ "") :
    (normalize_columns df = .error NormError.noTargetColumn ↔
      pyFalsy (detectTarget df d) = true) := by
  unfold normalize_columns
  rw [hd]
  dsimp only
  rw [if_neg hne]
  rcases ht : detectTarget df d with _ | t
  · simp [pyFalsy]
  · dsimp only
    by_cases hte : t = ""
    · rw [if_pos hte]
      simp [pyFalsy, hte]
    · rw [if_neg hte]
      simp [pyFalsy, hte]

/-- C7 (amended): the target column is selected by the exact priority the
spec states; the run fails with the no-target-column error exactly when
that selection is absent or Python-falsy (named by the empty string). -/
theorem target_selection_spec (df : DF) (d : String) (hd : detectDate df = some d) :
    detectTarget df d = specTargetCol df d ∧
    (normalize_columns df = .error NormError.noTargetColumn ↔
      pyFalsy (specTargetCol df d) = true) := by
  obtain ⟨hdy, hdne⟩ := detectDate_props df d hd
  have heq := detectTarget_eq_spec df d hdy
  refine ⟨heq, ?_⟩
  rw [← heq]
  exact normalize_error_iff df d hd hdne

/-- Witness for C7 on a table whose target is found by the common-name
rule. -/
theorem target_selection_spec_witness :
    detectTarget ⟨[("date", DType.obj), ("sales", DType.numeric)], []⟩ "date" =
      specTargetCol ⟨[("date", DType.obj), ("sales", DType.numeric)], []⟩ "date" :=
  (target_selection_spec ⟨[("date", DType.obj), ("sales", DType.numeric)], []⟩
    "date" (by decide)).1

/-- C7 counterexample: a numeric column named by the empty string is
selected by rule (d) of the spec, yet the code raises the no-target-column
error, because the Python truthiness guard on the detected target treats
the empty string as absent. -/
theorem target_selection_empty_name_cex :
    detectDate ⟨[("date", DType.obj), ("", DType.numeric)],
        [[Cell.str "x", Cell.num 5]]⟩ = some "date" ∧
    specTargetCol ⟨[("date", DType.obj), ("", DType.numeric)],
        [[Cell.str "x", Cell.num 5]]⟩ "date" = some "" ∧
    normalize_columns ⟨[("date", DType.obj), ("", DType.numeric)],
        [[Cell.str "x", Cell.num 5]]⟩ = .error NormError.noTargetColumn := by
  decide
